import Mathlib

/-!
Verification development for the lingovie narrated-text playback core.

The definitions below are a shallow embedding of the TypeScript source:

* `splitSentences`, the sentence segmenter of
  `src/components/VocabularyList.tsx` (lines 168-173), built on the regex
  `[^.!?]+[.!?]+(\s|$)|[^.!?]+$` with the `g` flag, followed by
  per-match `trim()` and `filter(Boolean)`, with `|| [text]` when the
  regex finds no match at all;
* `decodeAudioData` of `src/utils/audioUtils.ts` (lines 125-147), the
  raw PCM16-LE decoder;
* the playback controller of `src/components/VocabularyList.tsx`
  (`handlePlayStory`, `handleStopPlayback`, `handlePausePlayback`,
  `handleResumePlayback`), modelled as a small-step machine whose atomic
  steps are the code blocks between `await` suspension points;
* the story-collection handlers of `src/App.tsx`
  (`handleAddStory`, `handleUpdateStory`, `handleRemoveStory`).

Text is modelled as `List Char`; machine floating point division
`int16 / 32768.0` is exact on this range and is modelled in `ℚ`.
-/

/-- Terminal sentence punctuation of the segmenter regex: the character
class `[.!?]`. -/
def isTerminal (c : Char) : Bool :=
  c == '.' || c == '!' || c == '?'

/-- JavaScript whitespace (the `\s` class and the characters stripped by
`String.prototype.trim`): space, tab, line feed, carriage return,
vertical tab, form feed, no-break space, BOM.  (The remaining Unicode
space separators of `\s` are omitted; no claim depends on them.) -/
def isJsSpace (c : Char) : Bool :=
  c == ' ' || c == '\t' || c == '\n' || c == '\r' || c == '\x0b' ||
  c == '\x0c' || c == '\u00A0' || c == '\uFEFF'

/-- Model of `String.prototype.trim`: drop leading and trailing
whitespace. -/
def trimChars (l : List Char) : List Char :=
  ((l.dropWhile isJsSpace).reverse.dropWhile isJsSpace).reverse

/-- The non-whitespace content of a text (used to state reconstruction
claims about the segmenter). -/
def removeWs (l : List Char) : List Char :=
  l.filter (fun c => !(isJsSpace c))

/-- One attempt of the segmenter regex `[^.!?]+[.!?]+(\s|$)|[^.!?]+$`
anchored at the start of `l`: returns the matched prefix and the
remaining suffix, or `none` when neither alternative matches here.
Because the character classes `[^.!?]` and `[.!?]` are disjoint,
backtracking never helps, so the greedy runs below are exact. -/
def matchAt (l : List Char) : Option (List Char × List Char) :=
  match l with
  | [] => none
  | c :: _ =>
    if isTerminal c then none
    else
      match l.dropWhile (fun x => !(isTerminal x)) with
      | [] =>
        -- second alternative `[^.!?]+$`: the whole remainder is non-terminal
        some (l.takeWhile (fun x => !(isTerminal x)), [])
      | _ :: _ =>
        match (l.dropWhile fun x => !(isTerminal x)).dropWhile isTerminal with
        | [] =>
          -- first alternative with `$`: text ends right after the punctuation run
          some (l.takeWhile (fun x => !(isTerminal x)) ++
                ((l.dropWhile fun x => !(isTerminal x)).takeWhile isTerminal), [])
        | d :: r3 =>
          if isJsSpace d then
            -- first alternative with `\s`: one whitespace char is consumed
            some (l.takeWhile (fun x => !(isTerminal x)) ++
                  ((l.dropWhile fun x => !(isTerminal x)).takeWhile isTerminal) ++
                  [d], r3)
          else none

/-- Global scan of the regex (the `g` flag): collect successive matches,
advancing one character when no match starts at the current position.
`fuel` only forces structural termination; `fuel = l.length` is always
enough because every round consumes at least one character. -/
def scanAll : Nat → List Char → List (List Char)
  | 0, _ => []
  | _ + 1, [] => []
  | fuel + 1, c :: rest =>
    match matchAt (c :: rest) with
    | none => scanAll fuel rest
    | some (m, r) => m :: scanAll fuel r

/-- The segmenter `splitSentences` of `VocabularyList.tsx`:
`text.match(regex)?.map(s => s.trim()).filter(Boolean) || [text]`,
with the empty-string guard `if (!text) return []`.
Note `match` returns `null` (never `[]`) when there is no match, so the
`|| [text]` fallback fires exactly when the scan produces no match. -/
def splitSentences (text : List Char) : List (List Char) :=
  if text.isEmpty then []
  else
    let ms := scanAll text.length text
    if ms.isEmpty then [text]
    else (ms.map trimChars).filter (fun s => !s.isEmpty)

/-- Adjacency condition used to state the amended reconstruction claim
for the segmenter: reading `x` immediately followed by `y`,
(a) a terminal punctuation mark is never preceded by whitespace, and
(b) a terminal punctuation mark is followed by another terminal mark,
by whitespace, or by the end of the text. -/
def sepOk (x y : Char) : Bool :=
  (!(isTerminal y) || !(isJsSpace x)) &&
  (!(isTerminal x) || isTerminal y || isJsSpace y)

/-- Predicate `sepOk` holds for every adjacent pair of the list. -/
def chainOk : List Char → Bool
  | x :: y :: rest => sepOk x y && chainOk (y :: rest)
  | _ => true

/-- A text is well punctuated when it does not start with terminal
punctuation and every adjacent pair satisfies `sepOk`: each maximal run
of `[.!?]` is immediately preceded by a non-whitespace non-terminal
character and immediately followed by whitespace or the end of the
text.  On such texts the segmenter loses nothing (claim C4, amended). -/
def wellPunctuated (l : List Char) : Bool :=
  (match l with
   | [] => true
   | c :: _ => !(isTerminal c)) && chainOk l

/-! ## PCM decoder (`src/utils/audioUtils.ts`, `decodeAudioData`) -/

/-- The signed 16-bit little-endian integer formed by bytes `lo`, `hi`
(an element of the `Int16Array` view of the byte buffer). -/
def int16OfBytesLE (lo hi : Nat) : Int :=
  let u := lo + 256 * hi
  if u < 32768 then (u : Int) else (u : Int) - 65536

/-- The `new Int16Array(data.buffer)` view: pairs consecutive bytes into
little-endian 16-bit integers; constructing the view throws a
`RangeError` when the byte length is odd, modelled as `none`. -/
def toInt16List : List Nat → Option (List Int)
  | [] => some []
  | [_] => none
  | lo :: hi :: rest => (toInt16List rest).map (fun t => int16OfBytesLE lo hi :: t)

/-- The `AudioBuffer` produced by `ctx.createBuffer` and filled by
`decodeAudioData`: per-channel lists of normalized samples. -/
structure AudioBufferModel where
  sampleRate : Nat
  numChannels : Nat
  channelData : List (List ℚ)
deriving DecidableEq

/-- Model of `decodeAudioData(data, ctx, sampleRate, numChannels)`:
view the bytes as `Int16Array` (throws on odd byte length), compute
`frameCount = dataInt16.length / numChannels` (the Web IDL conversion
truncates the JS float division, and `ctx.createBuffer` throws
`NotSupportedError` when the resulting length is zero), then fill each
channel with `dataInt16[i * numChannels + channel] / 32768.0`.
Out-of-range typed-array reads/writes past `frameCount` are silently
dropped by the platform, so the effective buffer is exactly the
truncated frame count.  The declared sample rate is recorded as-is (no
resampling).  Failure of any step is `none` (a thrown exception). -/
def decodeAudioData (data : List Nat) (sampleRate numChannels : Nat) :
    Option AudioBufferModel :=
  match toInt16List data with
  | none => none
  | some dataInt16 =>
    let frameCount := dataInt16.length / numChannels
    if frameCount = 0 then none
    else some
      { sampleRate := sampleRate
        numChannels := numChannels
        channelData :=
          (List.range numChannels).map fun channel =>
            (List.range frameCount).map fun i =>
              ((dataInt16.getD (i * numChannels + channel) 0 : Int) : ℚ) / 32768 }

/-! ## Playback controller (`src/components/VocabularyList.tsx`)

The controller state merges the React state (`playbackState`,
`currentSentenceIdx`) with the refs (`stopPlaybackFlag`,
`audioCtxRef`); state setters are modelled as immediate writes.  The
running `handlePlayStory` loop is a coroutine whose atomic steps are
the code blocks between `await` suspension points; a `Pos` value is its
program counter.  External events (the speech service resolving, the
user invoking `stop`, a second `play` call) interleave only between
atomic steps, which is the single-threaded JS event-loop semantics. -/

/-- Observable playback status (`playbackState` React state). -/
inductive PbState
  | idle
  | playing
  | paused
deriving DecidableEq

/-- Lifecycle state of the shared `audioCtxRef` device context. -/
inductive CtxState
  | noCtx
  | running
  | suspended
  | closed
deriving DecidableEq

/-- The controller's shared mutable state. -/
structure Ctrl where
  playbackState : PbState
  currentSentenceIdx : Int
  stopFlag : Bool
  ctx : CtxState
deriving DecidableEq

/-- Result of one `generateSpeech` call for one sentence: decoded bytes,
an empty/null payload, or a thrown error. -/
inductive SpeechResult
  | ok (bytes : List Nat)
  | noAudio
  | fetchError
deriving DecidableEq

/-- The speech-service environment: per-sentence-index results. -/
def envAt (env : List SpeechResult) (i : Nat) : SpeechResult :=
  env.getD i SpeechResult.fetchError

/-- Observable events of a session, used to state ordering claims. -/
inductive Ev
  | fetchStart (i : Nat)
  | decodeDone (i : Nat)
  | playStart (i : Nat)
  | playEnd (i : Nat)
deriving DecidableEq

/-- The sentence index an event belongs to. -/
def evIdx : Ev → Nat
  | Ev.fetchStart i => i
  | Ev.decodeDone i => i
  | Ev.playStart i => i
  | Ev.playEnd i => i

/-- Program counter of the `handlePlayStory` sentence loop:
suspension points of the coroutine.  `finished` means the loop epilogue
ran; `died` means an uncaught exception ended the call early. -/
inductive Pos
  | atLoopHead (i : Nat)
  | afterFetch (i : Nat)
  | afterDecode (i : Nat) (decodeOk : Bool)
  | awaitingEnd (i : Nat)
  | finished
  | died
deriving DecidableEq

/-- The code after the loop:
`setPlaybackState('idle'); setCurrentSentenceIdx(-1);` -/
def epilogue (c : Ctrl) : Ctrl :=
  { c with playbackState := PbState.idle, currentSentenceIdx := -1 }

/-- Model of `handleStopPlayback`: set the cancellation flag; if a device context
exists, suspend it and reset status/index.  `suspend()` on a closed
context rejects, skipping the state resets; with no context the guard
is false and nothing beyond the flag happens. -/
def handleStopPlayback (c : Ctrl) : Ctrl :=
  let c1 := { c with stopFlag := true }
  match c1.ctx with
  | CtxState.noCtx => c1
  | CtxState.closed => c1
  | _ =>
    { c1 with
      ctx := CtxState.suspended
      playbackState := PbState.idle
      currentSentenceIdx := -1 }

/-- Model of `handlePausePlayback`: suspend only a running context. -/
def handlePausePlayback (c : Ctrl) : Ctrl :=
  if c.ctx == CtxState.running then
    { c with ctx := CtxState.suspended, playbackState := PbState.paused }
  else c

/-- Model of `handleResumePlayback`: resume only a suspended context. -/
def handleResumePlayback (c : Ctrl) : Ctrl :=
  if c.ctx == CtxState.suspended then
    { c with ctx := CtxState.running, playbackState := PbState.playing }
  else c

/-- Lines 212-221 of `handlePlayStory`: set status to `playing`, clear
the cancellation flag, reset the index, then initialize the device
context — create one when absent or closed (`ctorFails` models the
`AudioContext` constructor throwing, which the source does not catch),
or resume a suspended one.  Returns the mutated state and whether the
call survived (on `false` the exception propagates and the rest of
`handlePlayStory` never runs). -/
def handlePlayStoryInit (ctorFails : Bool) (c : Ctrl) : Ctrl × Bool :=
  let c1 :=
    { c with
      playbackState := PbState.playing
      stopFlag := false
      currentSentenceIdx := -1 }
  match c1.ctx with
  | CtxState.noCtx =>
    if ctorFails then (c1, false) else ({ c1 with ctx := CtxState.running }, true)
  | CtxState.closed =>
    if ctorFails then (c1, false) else ({ c1 with ctx := CtxState.running }, true)
  | CtxState.suspended => ({ c1 with ctx := CtxState.running }, true)
  | CtxState.running => (c1, true)

/-- One atomic step of the sentence loop of `handlePlayStory` for a
session over `n` sentences.
`atLoopHead i`: loop condition, cancellation check, set the index
observable, issue the speech fetch (then suspend awaiting it).
`afterFetch i`: the fetch resolved (or threw — caught by the per-
sentence `try`); cancellation check, null-audio check, synchronous part
of `decodeAudioData` (then suspend on its promise).
`afterDecode i ok`: on a decode error the `catch` advances the loop;
otherwise the playback-promise executor re-checks cancellation and
context, then starts the buffer source (suspending until `onended`).
`awaitingEnd i`: `onended` fires only while the context is running;
a suspended context blocks here (`none`). -/
def handlePlayStoryStep (env : List SpeechResult) (n : Nat) :
    Pos → Ctrl → Option (Pos × Ctrl × List Ev)
  | Pos.atLoopHead i, c =>
    if i < n then
      if c.stopFlag then some (Pos.finished, epilogue c, [])
      else
        some (Pos.afterFetch i, { c with currentSentenceIdx := (i : Int) },
          [Ev.fetchStart i])
    else some (Pos.finished, epilogue c, [])
  | Pos.afterFetch i, c =>
    match envAt env i with
    | SpeechResult.fetchError => some (Pos.atLoopHead (i + 1), c, [])
    | SpeechResult.noAudio =>
      if c.stopFlag then some (Pos.finished, epilogue c, [])
      else some (Pos.atLoopHead (i + 1), c, [])
    | SpeechResult.ok bytes =>
      if c.stopFlag then some (Pos.finished, epilogue c, [])
      else
        match decodeAudioData bytes 24000 1 with
        | none => some (Pos.afterDecode i false, c, [])
        | some _ => some (Pos.afterDecode i true, c, [Ev.decodeDone i])
  | Pos.afterDecode i false, c => some (Pos.atLoopHead (i + 1), c, [])
  | Pos.afterDecode i true, c =>
    if c.stopFlag || c.ctx == CtxState.noCtx then
      some (Pos.atLoopHead (i + 1), c, [])
    else if c.ctx == CtxState.closed then
      some (Pos.atLoopHead (i + 1), c, [])
    else some (Pos.awaitingEnd i, c, [Ev.playStart i])
  | Pos.awaitingEnd i, c =>
    if c.ctx == CtxState.running then
      some (Pos.atLoopHead (i + 1), c, [Ev.playEnd i])
    else none
  | Pos.finished, _ => none
  | Pos.died, _ => none

/-- Run the session coroutine without external interference until it
finishes, blocks, or the structural fuel runs out, collecting the
emitted events in order. -/
def handlePlayStoryRun (env : List SpeechResult) (n : Nat) :
    Nat → Pos → Ctrl → Pos × Ctrl × List Ev
  | 0, p, c => (p, c, [])
  | fuel + 1, p, c =>
    match handlePlayStoryStep env n p c with
    | none => (p, c, [])
    | some (p', c', evs) =>
      let r := handlePlayStoryRun env n fuel p' c'
      (r.1, r.2.1, evs ++ r.2.2)

/-- Model of `handlePlayStory(text)` taken from `idle`: the init block followed
by the sentence loop over `splitSentences text`.  (The `paused` entry
branch is `handleResumePlayback`; the `playing` entry branch composes
`handleStopPlayback`, the 50 ms grace delay and this start — that
composition is spelled out in the claim C1 theorem.)  When the device
constructor throws, the call dies with the already-mutated state. -/
def handlePlayStory (text : List Char) (env : List SpeechResult)
    (ctorFails : Bool) (fuel : Nat) (c : Ctrl) : Pos × Ctrl × List Ev :=
  match handlePlayStoryInit ctorFails c with
  | (c1, false) => (Pos.died, c1, [])
  | (c1, true) =>
    handlePlayStoryRun env (splitSentences text).length fuel (Pos.atLoopHead 0) c1

/-- The events one sentence contributes to an undisturbed session:
always a fetch; decode and playback only when speech was returned and
decoded. -/
def evsFor (r : SpeechResult) (i : Nat) : List Ev :=
  match r with
  | SpeechResult.ok bytes =>
    match decodeAudioData bytes 24000 1 with
    | some _ => [Ev.fetchStart i, Ev.decodeDone i, Ev.playStart i, Ev.playEnd i]
    | none => [Ev.fetchStart i]
  | _ => [Ev.fetchStart i]

/-- A speech result that yields audible playback: audio present and
decodable. -/
def resultPlayable (r : SpeechResult) : Bool :=
  match r with
  | SpeechResult.ok bytes => (decodeAudioData bytes 24000 1).isSome
  | _ => false

/-- Controller state right after a successful session init. -/
def startCtrl : Ctrl :=
  { playbackState := PbState.playing
    currentSentenceIdx := -1
    stopFlag := false
    ctx := CtxState.running }

/-! ## Story collection (`src/App.tsx`) -/

/-- A stored story, reduced to the fields the collection handlers
inspect (`id`, `isSaved`; `title` stands for the untouched payload).
The optional `isSaved?: boolean` of the source is modelled as `Bool`
with `undefined ↦ false` (both are falsy in the `!story.isSaved`
test). -/
structure StoryR where
  id : String
  isSaved : Bool
  title : String
deriving DecidableEq

/-- A `Partial<Story>` update restricted to the modelled fields. -/
structure StoryUpdate where
  isSaved : Option Bool
  title : Option String
deriving DecidableEq

/-- The spread `{ ...s, ...updates }`. -/
def applyUpdate (u : StoryUpdate) (s : StoryR) : StoryR :=
  { s with
    isSaved := u.isSaved.getD s.isSaved
    title := u.title.getD s.title }

/-- Model of `handleAddStory`: a draft (not saved) story replaces every existing
draft; a saved story is simply prepended. -/
def handleAddStory (story : StoryR) (prev : List StoryR) : List StoryR :=
  if !story.isSaved then story :: prev.filter (fun s => s.isSaved)
  else story :: prev

/-- Model of `handleUpdateStory`: merge the update into the story with the given
id. -/
def handleUpdateStory (id : String) (u : StoryUpdate) (prev : List StoryR) :
    List StoryR :=
  prev.map (fun s => if s.id == id then applyUpdate u s else s)

/-- Model of `handleRemoveStory`: drop the story with the given id. -/
def handleRemoveStory (id : String) (prev : List StoryR) : List StoryR :=
  prev.filter (fun s => !(s.id == id))

/-- The operations reachable through the App's story interface. -/
inductive StoreOp
  | add (story : StoryR)
  | update (id : String) (u : StoryUpdate)
  | remove (id : String)

/-- Interpret one operation. -/
def applyOp : StoreOp → List StoryR → List StoryR
  | StoreOp.add s, l => handleAddStory s l
  | StoreOp.update id u, l => handleUpdateStory id u l
  | StoreOp.remove id, l => handleRemoveStory id l

/-- Run a sequence of operations from the initial empty collection. -/
def runOps (ops : List StoreOp) : List StoryR :=
  ops.foldl (fun l op => applyOp op l) []

/-- Number of drafts (stories with `isSaved` falsy) in the collection. -/
def draftCount (l : List StoryR) : Nat :=
  (l.filter (fun s => !s.isSaved)).length

/-- The update operations the claim admits: an update only ever marks a
story saved (the source's single `onUpdateStory` call site passes
`{ isSaved: true }`). -/
def marksSaved : StoreOp → Prop
  | StoreOp.update _ u => u.isSaved = some true
  | _ => True

/-! ## Theorems -/

/-- Sanity check: the spec scenario input splits into its two
sentences, punctuation kept. -/
theorem splitSentences_scenario :
    splitSentences ("Hello world. How are you?".data) =
      ["Hello world.".data, "How are you?".data] := by decide

/-- Every element of `takeWhile p l` satisfies `p`. -/
theorem mem_takeWhile_sat {α : Type} (p : α → Bool) :
    ∀ l : List α, ∀ x ∈ l.takeWhile p, p x = true := by
  intro l
  induction l with
  | nil => intro x hx; simp [List.takeWhile] at hx
  | cons a t ih =>
    intro x hx
    cases h : p a with
    | false => rw [List.takeWhile_cons_of_neg (by simp [h])] at hx; cases hx
    | true =>
      rw [List.takeWhile_cons_of_pos h] at hx
      rcases List.mem_cons.mp hx with rfl | hx
      · exact h
      · exact ih x hx

/-- The first element surviving `dropWhile p` falsifies `p`. -/
theorem dropWhile_head_not {α : Type} (p : α → Bool) :
    ∀ (l : List α) (c : α) (r : List α), l.dropWhile p = c :: r → p c = false := by
  intro l
  induction l with
  | nil => intro c r h; simp [List.dropWhile] at h
  | cons a t ih =>
    intro c r h
    cases hp : p a with
    | true => rw [List.dropWhile_cons_of_pos hp] at h; exact ih c r h
    | false =>
      rw [List.dropWhile_cons_of_neg (by simp [hp])] at h
      cases h
      exact hp

/-- A chain condition restricted to the tail. -/
theorem chainOk_cons {x : Char} {l : List Char} (h : chainOk (x :: l) = true) :
    chainOk l = true := by
  cases l with
  | nil => rfl
  | cons y t =>
    simp only [chainOk, Bool.and_eq_true] at h
    exact h.2

/-- A chain condition restricted to a suffix. -/
theorem chainOk_suffix :
    ∀ (l₁ l₂ : List Char), chainOk (l₁ ++ l₂) = true → chainOk l₂ = true := by
  intro l₁
  induction l₁ with
  | nil => intro l₂ h; simpa using h
  | cons a t ih =>
    intro l₂ h
    rw [List.cons_append] at h
    exact ih l₂ (chainOk_cons h)

/-- The chain condition yields `sepOk` at every adjacent pair. -/
theorem chainOk_adj :
    ∀ (l₁ : List Char) (x y : Char) (l₂ : List Char),
      chainOk (l₁ ++ x :: y :: l₂) = true → sepOk x y = true := by
  intro l₁ x y l₂ h
  have h2 := chainOk_suffix l₁ _ h
  simp only [chainOk, Bool.and_eq_true] at h2
  exact h2.1

/-- Every nonempty list ends in a last element. -/
theorem exists_concat_of_ne_nil {α : Type} :
    ∀ (l : List α), l ≠ [] → ∃ l' x, l = l' ++ [x] := by
  intro l
  induction l with
  | nil => intro h; exact absurd rfl h
  | cons a t ih =>
    intro _
    cases t with
    | nil => exact ⟨[], a, rfl⟩
    | cons b t2 =>
      obtain ⟨l', x, hx⟩ := ih (by simp)
      exact ⟨a :: l', x, by simp [hx]⟩

/-- On a well-punctuated nonempty text the regex matches at the start,
the match plus the remainder reassemble the text, and the remainder is
again well punctuated. -/
theorem matchAt_wp :
    ∀ (l : List Char), wellPunctuated l = true → l ≠ [] →
      ∃ m r, matchAt l = some (m, r) ∧ l = m ++ r ∧ m ≠ [] ∧
        wellPunctuated r = true := by
  intro l hwp hne
  obtain ⟨c, rest, rfl⟩ : ∃ c rest, l = c :: rest := by
    cases l with
    | nil => exact absurd rfl hne
    | cons c rest => exact ⟨c, rest, rfl⟩
  simp only [wellPunctuated, Bool.and_eq_true, Bool.not_eq_true'] at hwp
  obtain ⟨hhead, hchain⟩ := hwp
  have hAR := List.takeWhile_append_dropWhile (p := fun x => !(isTerminal x))
    (l := c :: rest)
  cases hR1 : (c :: rest).dropWhile (fun x => !(isTerminal x)) with
  | nil =>
    refine ⟨(c :: rest).takeWhile (fun x => !(isTerminal x)), [], ?_, ?_, ?_, ?_⟩
    · simp [matchAt, hhead, hR1]
    · rw [hR1] at hAR; simpa using hAR.symm
    · rw [hR1] at hAR
      simp only [List.append_nil] at hAR
      rw [hAR]
      simp
    · decide
  | cons t r1t =>
    have ht : isTerminal t = true := by
      have := dropWhile_head_not (fun x => !(isTerminal x)) (c :: rest) t r1t hR1
      simpa using this
    have hBR := List.takeWhile_append_dropWhile (p := isTerminal) (l := t :: r1t)
    have hBne : (t :: r1t).takeWhile isTerminal ≠ [] := by
      rw [List.takeWhile_cons_of_pos ht]
      simp
    cases hR2 : (t :: r1t).dropWhile isTerminal with
    | nil =>
      refine ⟨(c :: rest).takeWhile (fun x => !(isTerminal x)) ++
        (t :: r1t).takeWhile isTerminal, [], ?_, ?_, ?_, ?_⟩
      · simp [matchAt, hhead, hR1, hR2]
      · rw [hR2] at hBR
        simp only [List.append_nil] at hBR ⊢
        rw [hBR, ← hR1]
        exact hAR.symm
      · simp [hBne]
      · decide
    | cons d r3 =>
      have hdnt : isTerminal d = false :=
        dropWhile_head_not isTerminal (t :: r1t) d r3 hR2
      obtain ⟨B', lb, hB⟩ := exists_concat_of_ne_nil _ hBne
      have hlb : isTerminal lb = true := by
        refine mem_takeWhile_sat isTerminal (t :: r1t) lb ?_
        rw [hB]
        simp
      have hdecomp :
          c :: rest = (c :: rest).takeWhile (fun x => !(isTerminal x)) ++
            (B' ++ (lb :: (d :: r3))) := by
        conv_lhs => rw [← hAR]
        rw [hR1, ← hBR, hR2, hB]
        simp [List.append_assoc]
      have hsep : sepOk lb d = true := by
        apply chainOk_adj ((c :: rest).takeWhile (fun x => !(isTerminal x)) ++ B')
          lb d r3
        have heq : ((c :: rest).takeWhile (fun x => !(isTerminal x)) ++ B') ++
            lb :: d :: r3 = c :: rest := by
          conv_rhs => rw [hdecomp]
          simp [List.append_assoc]
        rw [heq]
        exact hchain
      have hd : isJsSpace d = true := by
        simpa [sepOk, hlb, hdnt] using hsep
      refine ⟨(c :: rest).takeWhile (fun x => !(isTerminal x)) ++
        (t :: r1t).takeWhile isTerminal ++ [d], r3, ?_, ?_, ?_, ?_⟩
      · simp [matchAt, hhead, hR1, hR2, hd]
      · conv_lhs => rw [hdecomp]
        simp [hB, List.append_assoc]
      · simp
      · have hchain3 : chainOk r3 = true := by
          apply chainOk_suffix ((c :: rest).takeWhile (fun x => !(isTerminal x)) ++
            (t :: r1t).takeWhile isTerminal ++ [d]) r3
          have heq : ((c :: rest).takeWhile (fun x => !(isTerminal x)) ++
              (t :: r1t).takeWhile isTerminal ++ [d]) ++ r3 = c :: rest := by
            conv_rhs => rw [hdecomp]
            simp [hB, List.append_assoc]
          rw [heq]
          exact hchain
        cases r3 with
        | nil => decide
        | cons e r3t =>
          have hsep2 : sepOk d e = true := by
            apply chainOk_adj ((c :: rest).takeWhile (fun x => !(isTerminal x)) ++
              (t :: r1t).takeWhile isTerminal) d e r3t
            have heq : ((c :: rest).takeWhile (fun x => !(isTerminal x)) ++
                (t :: r1t).takeWhile isTerminal) ++ d :: e :: r3t = c :: rest := by
              conv_rhs => rw [hdecomp]
              simp [hB, List.append_assoc]
            rw [heq]
            exact hchain
          have he : isTerminal e = false := by
            have h2 := hsep2
            simp only [sepOk, hd, hdnt, Bool.not_true, Bool.not_false,
              Bool.or_false, Bool.false_or, Bool.true_or, Bool.or_true,
              Bool.and_true, Bool.true_and, Bool.not_eq_true'] at h2
            exact h2
          simp only [wellPunctuated, Bool.and_eq_true, Bool.not_eq_true']
          exact ⟨he, hchain3⟩

/-- On a well-punctuated text the scan's matches reassemble the whole
text: nothing is skipped. -/
theorem scanAll_join :
    ∀ (fuel : Nat) (l : List Char), l.length ≤ fuel →
      wellPunctuated l = true → (scanAll fuel l).flatten = l := by
  intro fuel
  induction fuel with
  | zero =>
    intro l hl _
    have : l = [] := List.length_eq_zero.mp (Nat.le_zero.mp hl)
    subst this
    rfl
  | succ f ih =>
    intro l hl hwp
    cases l with
    | nil => rfl
    | cons c rest =>
      obtain ⟨m, r, hm, hlr, hmne, hwr⟩ := matchAt_wp (c :: rest) hwp (by simp)
      have hlen : (c :: rest).length = m.length + r.length := by
        rw [hlr, List.length_append]
      have hm1 : 1 ≤ m.length := by
        cases m with
        | nil => exact absurd rfl hmne
        | cons _ _ => simp
      have hr : r.length ≤ f := by
        simp only [List.length_cons] at hl hlen
        omega
      simp only [scanAll, hm, List.flatten_cons]
      rw [ih r hr hwr]
      exact hlr.symm

/-- Filtering out the empty sentences does not change the
concatenation. -/
theorem flatten_filter_nonempty (xs : List (List Char)) :
    ((xs.filter (fun s => !s.isEmpty)).flatten) = xs.flatten := by
  induction xs with
  | nil => rfl
  | cons a t ih =>
    cases h : a.isEmpty with
    | true =>
      have ha : a = [] := by simpa using h
      simp [List.filter_cons, h, ih, ha]
    | false => simp [List.filter_cons, h, ih]

/-- Function `removeWs` distributes over append. -/
theorem removeWs_append (a b : List Char) :
    removeWs (a ++ b) = removeWs a ++ removeWs b := by
  simp [removeWs, List.filter_append]

/-- Dropping leading whitespace does not change the non-whitespace
content. -/
theorem removeWs_dropWhile (l : List Char) :
    removeWs (l.dropWhile isJsSpace) = removeWs l := by
  induction l with
  | nil => rfl
  | cons a t ih =>
    cases h : isJsSpace a with
    | true =>
      rw [List.dropWhile_cons_of_pos h, ih]
      simp [removeWs, List.filter_cons, h]
    | false => rw [List.dropWhile_cons_of_neg (by simp [h])]

/-- Function `removeWs` commutes with `reverse`. -/
theorem removeWs_reverse (l : List Char) :
    removeWs l.reverse = (removeWs l).reverse := by
  simp [removeWs, List.filter_reverse]

/-- Trimming does not change the non-whitespace content. -/
theorem removeWs_trimChars (l : List Char) :
    removeWs (trimChars l) = removeWs l := by
  unfold trimChars
  rw [removeWs_reverse, removeWs_dropWhile, removeWs_reverse,
    List.reverse_reverse, removeWs_dropWhile]

/-- Trimming the sentences does not change the non-whitespace content
of the concatenation. -/
theorem removeWs_flatten_map_trim (xs : List (List Char)) :
    removeWs ((xs.map trimChars).flatten) = removeWs xs.flatten := by
  induction xs with
  | nil => rfl
  | cons a t ih =>
    simp only [List.map_cons, List.flatten_cons, removeWs_append,
      removeWs_trimChars, ih]

/-- C4 fails on the source as stated: `"a.b"` contains a terminal
punctuation mark, yet the segmenter drops the characters `a.`,
returning `["b"]`, whose concatenation does not reconstruct the
non-whitespace content of the input. -/
theorem claim4_counterexample :
    (∃ c ∈ ['a', '.', 'b'], isTerminal c = true) ∧
      splitSentences ['a', '.', 'b'] = [['b']] ∧
      removeWs (splitSentences ['a', '.', 'b']).flatten ≠
        removeWs ['a', '.', 'b'] := by decide

/-- Claim C4, amended: for every text containing a terminal punctuation
mark in which, additionally, every maximal terminal-punctuation run is
immediately preceded by a non-whitespace non-terminal character and
immediately followed by whitespace or the end of the text
(`wellPunctuated`), the concatenation of the sentences returned by
`splitSentences`, after trimming, reconstructs the text's
non-whitespace content. -/
theorem claim4_segmenter_reconstructs (text : List Char)
    (hterm : ∃ c ∈ text, isTerminal c = true)
    (hwp : wellPunctuated text = true) :
    removeWs (splitSentences text).flatten = removeWs text := by
  have hne : text ≠ [] := by
    obtain ⟨c, hc, _⟩ := hterm
    intro h
    subst h
    cases hc
  unfold splitSentences
  rw [if_neg (by simpa [List.isEmpty_iff] using hne)]
  have hjoin : (scanAll text.length text).flatten = text :=
    scanAll_join text.length text le_rfl hwp
  by_cases hms : scanAll text.length text = []
  · simp [hms]
  · rw [if_neg (by simpa [List.isEmpty_iff] using hms)]
    rw [flatten_filter_nonempty, removeWs_flatten_map_trim, hjoin]

/-- Witness for the amended claim C4 at the spec's own scenario
input. -/
theorem claim4_witness :
    removeWs (splitSentences ("Hello world. How are you?".data)).flatten =
      removeWs ("Hello world. How are you?".data) :=
  claim4_segmenter_reconstructs ("Hello world. How are you?".data)
    (by decide) (by decide)

/-- C7 fails on the source as stated: `" "` contains no terminal
punctuation mark, yet the segmenter returns the empty list — not the
one-element list holding the trimmed (empty) input. -/
theorem claim7_counterexample :
    (∀ c ∈ [' '], isTerminal c = false) ∧ splitSentences [' '] = [] := by decide

/-- Claim C7, amended: for every text containing no terminal
punctuation mark and at least one non-whitespace character (so that its
trim is nonempty), the segmenter returns exactly the one-element list
holding the trimmed input. -/
theorem claim7_single_sentence (text : List Char)
    (hnt : ∀ c ∈ text, isTerminal c = false)
    (htrim : trimChars text ≠ []) :
    splitSentences text = [trimChars text] := by
  have hne : text ≠ [] := by
    intro h
    subst h
    exact htrim rfl
  obtain ⟨c, rest, rfl⟩ : ∃ c rest, text = c :: rest := by
    cases text with
    | nil => exact absurd rfl hne
    | cons c rest => exact ⟨c, rest, rfl⟩
  have hdrop : (c :: rest).dropWhile (fun x => !(isTerminal x)) = [] := by
    rw [List.dropWhile_eq_nil_iff]
    intro x hx
    simp [hnt x hx]
  have htake : (c :: rest).takeWhile (fun x => !(isTerminal x)) = c :: rest := by
    have := List.takeWhile_append_dropWhile (p := fun x => !(isTerminal x))
      (l := c :: rest)
    rw [hdrop] at this
    simpa using this
  have hmatch : matchAt (c :: rest) = some (c :: rest, []) := by
    simp [matchAt, hnt c (by simp), hdrop, htake]
  have hscan : scanAll (c :: rest).length (c :: rest) = [c :: rest] := by
    simp only [List.length_cons, scanAll, hmatch]
    cases rest.length <;> rfl
  unfold splitSentences
  rw [if_neg (by simp)]
  simp only [hscan]
  simp [htrim, List.isEmpty_iff]

/-- Witness for the amended claim C7 at a concrete un-punctuated
input. -/
theorem claim7_witness :
    splitSentences ("No punctuation here".data) =
      [trimChars ("No punctuation here".data)] :=
  claim7_single_sentence ("No punctuation here".data) (by decide) (by decide)

/-- Function `toInt16List` fails exactly on odd byte lengths (bounded
auxiliary form for the induction). -/
theorem toInt16List_none_aux :
    ∀ (n : Nat) (l : List Nat), l.length ≤ n →
      (toInt16List l = none ↔ l.length % 2 = 1) := by
  intro n
  induction n with
  | zero =>
    intro l hl
    have : l = [] := List.length_eq_zero.mp (Nat.le_zero.mp hl)
    subst this
    simp [toInt16List]
  | succ nn ih =>
    intro l hl
    match l with
    | [] => simp [toInt16List]
    | [a] => simp [toInt16List]
    | a :: b :: rest =>
      have hr : rest.length ≤ nn := by
        simp only [List.length_cons] at hl
        omega
      have := ih rest hr
      simp only [toInt16List, Option.map_eq_none', List.length_cons]
      constructor
      · intro h
        have := this.mp h
        omega
      · intro h
        exact this.mpr (by omega)

/-- Function `toInt16List` fails exactly on odd byte lengths. -/
theorem toInt16List_eq_none (l : List Nat) :
    toInt16List l = none ↔ l.length % 2 = 1 :=
  toInt16List_none_aux l.length l le_rfl

/-- A successful `Int16Array` view halves the byte length (bounded
auxiliary form). -/
theorem toInt16List_len_aux :
    ∀ (n : Nat) (l : List Nat) (ints : List Int), l.length ≤ n →
      toInt16List l = some ints → 2 * ints.length = l.length := by
  intro n
  induction n with
  | zero =>
    intro l ints hl h
    have : l = [] := List.length_eq_zero.mp (Nat.le_zero.mp hl)
    subst this
    simp [toInt16List] at h
    subst h
    rfl
  | succ nn ih =>
    intro l ints hl h
    match l with
    | [] =>
      simp [toInt16List] at h
      subst h
      rfl
    | [a] => simp [toInt16List] at h
    | a :: b :: rest =>
      have hr : rest.length ≤ nn := by
        simp only [List.length_cons] at hl
        omega
      simp only [toInt16List, Option.map_eq_some'] at h
      obtain ⟨t, ht, rfl⟩ := h
      have := ih rest t hr ht
      simp only [List.length_cons]
      omega

/-- A successful `Int16Array` view halves the byte length. -/
theorem toInt16List_len (l : List Nat) (ints : List Int)
    (h : toInt16List l = some ints) : 2 * ints.length = l.length :=
  toInt16List_len_aux l.length l ints le_rfl h

/-- The elements of the `Int16Array` view are the little-endian 16-bit
integers of consecutive byte pairs (bounded auxiliary form). -/
theorem toInt16List_getD_aux :
    ∀ (n : Nat) (l : List Nat) (ints : List Int), l.length ≤ n →
      toInt16List l = some ints →
      ∀ i, i < ints.length →
        ints.getD i 0 = int16OfBytesLE (l.getD (2 * i) 0) (l.getD (2 * i + 1) 0) := by
  intro n
  induction n with
  | zero =>
    intro l ints hl h i hi
    have : l = [] := List.length_eq_zero.mp (Nat.le_zero.mp hl)
    subst this
    simp [toInt16List] at h
    subst h
    simp at hi
  | succ nn ih =>
    intro l ints hl h i hi
    match l with
    | [] =>
      simp [toInt16List] at h
      subst h
      simp at hi
    | [a] => simp [toInt16List] at h
    | a :: b :: rest =>
      have hr : rest.length ≤ nn := by
        simp only [List.length_cons] at hl
        omega
      simp only [toInt16List, Option.map_eq_some'] at h
      obtain ⟨t, ht, rfl⟩ := h
      cases i with
      | zero => rfl
      | succ j =>
        have hj : j < t.length := by
          simp only [List.length_cons] at hi
          omega
        have e1 : 2 * (j + 1) = 2 * j + 1 + 1 := by omega
        rw [e1]
        simp only [List.getD_cons_succ]
        exact ih rest t hr ht j hj

/-- The elements of the `Int16Array` view are the little-endian 16-bit
integers of consecutive byte pairs. -/
theorem toInt16List_getD (l : List Nat) (ints : List Int)
    (h : toInt16List l = some ints) (i : Nat) (hi : i < ints.length) :
    ints.getD i 0 = int16OfBytesLE (l.getD (2 * i) 0) (l.getD (2 * i + 1) 0) :=
  toInt16List_getD_aux l.length l ints le_rfl h i hi

/-- Byte-range bound on the decoded 16-bit value. -/
theorem int16OfBytesLE_bounds (lo hi : Nat) (hlo : lo < 256) (hhi : hi < 256) :
    -32768 ≤ int16OfBytesLE lo hi ∧ int16OfBytesLE lo hi < 32768 := by
  simp only [int16OfBytesLE]
  split <;> omega

/-- Mono decode with a nonempty 16-bit view succeeds and produces one
channel of normalized samples. -/
theorem decodeAudioData_mono (data : List Nat) (r : Nat) (ints : List Int)
    (h : toInt16List data = some ints) (hne : ints.length ≠ 0) :
    decodeAudioData data r 1 = some
      { sampleRate := r
        numChannels := 1
        channelData :=
          [(List.range ints.length).map fun i =>
            ((ints.getD i 0 : Int) : ℚ) / 32768] } := by
  unfold decodeAudioData
  rw [h]
  have hr1 : List.range 1 = [0] := rfl
  simp [hne, hr1]

/-- A list element read through `getD` at an in-range index is a member
of the list. -/
theorem getD_mem_of_lt {A : Type} (l : List A) (n : Nat) (d : A)
    (h : n < l.length) : l.getD n d ∈ l := by
  induction l generalizing n with
  | nil => simp at h
  | cons a t ih =>
    cases n with
    | zero => simp
    | succ m =>
      simp only [List.getD_cons_succ]
      exact List.mem_cons_of_mem a (ih m (by simpa using h))

/-- Element lookup in a mapped range. -/
theorem getD_map_range (f : Nat → ℚ) (N i : Nat) (h : i < N) :
    ((List.range N).map f).getD i 0 = f i := by
  rw [List.getD_eq_getElem?_getD, List.getElem?_map, List.getElem?_range h]
  rfl

/-- C5 fails on the source as stated at `N = 0`: the empty byte buffer
has length `2 * 0`, but decoding produces no buffer at all (the
zero-length `createBuffer` call throws) instead of a 0-frame buffer. -/
theorem claim5_counterexample :
    ([] : List Nat).length = 2 * 0 ∧ decodeAudioData [] 24000 1 = none := by
  decide

/-- Claim C5, amended: for every byte buffer of length `2 * N` with
`N ≥ 1`, mono decoding yields one channel of exactly `N` frames whose
`i`-th sample is the `i`-th little-endian signed 16-bit integer divided
by `32768.0`, hence in `[-1, 1)`; the declared sample rate is recorded
unchanged (no resampling). -/
theorem claim5_decode_frames (data : List Nat) (N : Nat)
    (hlen : data.length = 2 * N) (hN : 1 ≤ N) (hb : ∀ b ∈ data, b < 256) :
    ∃ samples : List ℚ,
      decodeAudioData data 24000 1 = some
        { sampleRate := 24000, numChannels := 1, channelData := [samples] } ∧
      samples.length = N ∧
      ∀ i, i < N →
        samples.getD i 0 =
          ((int16OfBytesLE (data.getD (2 * i) 0) (data.getD (2 * i + 1) 0) : Int) : ℚ)
            / 32768 ∧
        -1 ≤ samples.getD i 0 ∧ samples.getD i 0 < 1 := by
  obtain ⟨ints, hints⟩ : ∃ ints, toInt16List data = some ints := by
    cases htl : toInt16List data with
    | none =>
      have := (toInt16List_eq_none data).mp htl
      omega
    | some ints => exact ⟨ints, rfl⟩
  have hlen2 : ints.length = N := by
    have := toInt16List_len data ints hints
    omega
  refine ⟨(List.range ints.length).map fun i => ((ints.getD i 0 : Int) : ℚ) / 32768,
    decodeAudioData_mono data 24000 ints hints (by omega), ?_, ?_⟩
  · simp [hlen2]
  · intro i hi
    have hii : i < ints.length := by omega
    have hget : ((List.range ints.length).map
        fun j => ((ints.getD j 0 : Int) : ℚ) / 32768).getD i 0 =
        ((ints.getD i 0 : Int) : ℚ) / 32768 :=
      getD_map_range _ ints.length i hii
    have hval := toInt16List_getD data ints hints i hii
    have hlo : data.getD (2 * i) 0 < 256 :=
      hb _ (getD_mem_of_lt data (2 * i) 0 (by omega))
    have hhi : data.getD (2 * i + 1) 0 < 256 :=
      hb _ (getD_mem_of_lt data (2 * i + 1) 0 (by omega))
    have hbd := int16OfBytesLE_bounds (data.getD (2 * i) 0)
      (data.getD (2 * i + 1) 0) hlo hhi
    refine ⟨by rw [hget, hval], ?_, ?_⟩
    · rw [hget]
      rw [le_div_iff₀ (by norm_num : (0 : ℚ) < 32768)]
      have : ((-32768 : Int) : ℚ) ≤ ((ints.getD i 0 : Int) : ℚ) := by
        exact_mod_cast hval ▸ hbd.1
      push_cast at this ⊢
      linarith
    · rw [hget]
      rw [div_lt_one (by norm_num : (0 : ℚ) < 32768)]
      have : ((ints.getD i 0 : Int) : ℚ) < ((32768 : Int) : ℚ) := by
        exact_mod_cast hval ▸ hbd.2
      push_cast at this ⊢
      linarith

/-- Witness for the amended claim C5: the two-byte buffer `[0, 128]`
decodes to the single sample `-32768 / 32768 = -1`. -/
theorem claim5_witness :
    ∃ samples : List ℚ,
      decodeAudioData [0, 128] 24000 1 = some
        { sampleRate := 24000, numChannels := 1, channelData := [samples] } ∧
      samples.length = 1 ∧
      ∀ i, i < 1 →
        samples.getD i 0 =
          ((int16OfBytesLE (([0, 128] : List Nat).getD (2 * i) 0)
            (([0, 128] : List Nat).getD (2 * i + 1) 0) : Int) : ℚ) / 32768 ∧
        -1 ≤ samples.getD i 0 ∧ samples.getD i 0 < 1 :=
  claim5_decode_frames [0, 128] 1 (by decide) (by decide) (by decide)

/-- C6 fails on the source as stated: the empty buffer's length is a
multiple of `2 * channels`, yet decoding fails (zero-length
`createBuffer` throws). -/
theorem claim6_counterexample :
    ([] : List Nat).length % 2 = 0 ∧ decodeAudioData [] 24000 1 = none := by
  decide

/-- Mono decoding fails exactly on an odd or empty byte buffer. -/
theorem decodeAudioData_none_iff (data : List Nat) (r : Nat) :
    decodeAudioData data r 1 = none ↔
      (data.length % 2 = 1 ∨ data.length = 0) := by
  cases htl : toInt16List data with
  | none =>
    have hodd := (toInt16List_eq_none data).mp htl
    unfold decodeAudioData
    rw [htl]
    simp [hodd]
  | some ints =>
    have hlen := toInt16List_len data ints htl
    have heven : ¬ (data.length % 2 = 1) := by omega
    unfold decodeAudioData
    rw [htl]
    simp only [Nat.div_one]
    rcases Nat.eq_zero_or_pos ints.length with hz | hp
    · rw [if_pos hz]
      have h0 : data.length = 0 := by omega
      simp [h0]
    · rw [if_neg (by omega)]
      constructor
      · intro h
        simp at h
      · intro h
        rcases h with h | h
        · exact absurd h heven
        · exact absurd rfl (by omega : ¬ (0 = 0))

/-- Unfolding one successful step of the session runner. -/
theorem run_step_some {env : List SpeechResult} {n : Nat} {p : Pos} {c : Ctrl}
    {p' : Pos} {c' : Ctrl} {e : List Ev} (fuel : Nat)
    (h : handlePlayStoryStep env n p c = some (p', c', e)) :
    handlePlayStoryRun env n (fuel + 1) p c =
      ((handlePlayStoryRun env n fuel p' c').1,
       (handlePlayStoryRun env n fuel p' c').2.1,
       e ++ (handlePlayStoryRun env n fuel p' c').2.2) := by
  simp [handlePlayStoryRun, h]

/-- A blocked step freezes the runner. -/
theorem run_step_none {env : List SpeechResult} {n : Nat} {p : Pos} {c : Ctrl}
    (fuel : Nat) (h : handlePlayStoryStep env n p c = none) :
    handlePlayStoryRun env n (fuel + 1) p c = (p, c, []) := by
  simp [handlePlayStoryRun, h]

/-- A finished session stays finished and emits nothing. -/
theorem run_finished (env : List SpeechResult) (n fuel : Nat) (c : Ctrl) :
    handlePlayStoryRun env n fuel Pos.finished c = (Pos.finished, c, []) := by
  cases fuel with
  | zero => rfl
  | succ f => rfl

/-- Characterization of an undisturbed session: starting at sentence `i`
with the cancellation flag clear and the device running, the loop
processes sentences `i, i+1, …, n-1` strictly in order, emits exactly
the per-sentence blocks `evsFor`, and ends finished with status `idle`
and index `-1`. -/
theorem run_char (env : List SpeechResult) (n : Nat) :
    ∀ (k i fuel : Nat) (c : Ctrl),
      i + k = n → 4 * k + 2 ≤ fuel → c.stopFlag = false →
      c.ctx = CtxState.running →
      handlePlayStoryRun env n fuel (Pos.atLoopHead i) c =
        (Pos.finished,
         { c with playbackState := PbState.idle, currentSentenceIdx := -1 },
         ((List.range' i k).map fun j => evsFor (envAt env j) j).flatten) := by
  intro k
  induction k with
  | zero =>
    intro i fuel c hik hfuel hflag hctx
    obtain ⟨f, rfl⟩ : ∃ f, fuel = f + 1 := ⟨fuel - 1, by omega⟩
    have hni : ¬ i < n := by omega
    have hstepA : handlePlayStoryStep env n (Pos.atLoopHead i) c =
        some (Pos.finished, epilogue c, []) := by
      simp [handlePlayStoryStep, hni]
    rw [run_step_some f hstepA, run_finished]
    have hr0 : List.range' i 0 = [] := rfl
    simp [epilogue, hr0]
  | succ kk ihk =>
    intro i fuel c hik hfuel hflag hctx
    have hi : i < n := by omega
    obtain ⟨f1, rfl⟩ : ∃ f, fuel = f + 1 := ⟨fuel - 1, by omega⟩
    have hstepA : handlePlayStoryStep env n (Pos.atLoopHead i) c =
        some (Pos.afterFetch i, { c with currentSentenceIdx := (i : Int) },
          [Ev.fetchStart i]) := by
      simp [handlePlayStoryStep, hi, hflag]
    rw [run_step_some f1 hstepA]
    have hrr : List.range' i (kk + 1) = i :: List.range' (i + 1) kk := rfl
    rw [hrr]
    simp only [List.map_cons, List.flatten_cons]
    cases hres : envAt env i with
    | fetchError =>
      obtain ⟨f2, rfl⟩ : ∃ f, f1 = f + 1 := ⟨f1 - 1, by omega⟩
      have hstepB : handlePlayStoryStep env n (Pos.afterFetch i)
          { c with currentSentenceIdx := (i : Int) } =
          some (Pos.atLoopHead (i + 1),
            { c with currentSentenceIdx := (i : Int) }, []) := by
        simp [handlePlayStoryStep, hres]
      rw [run_step_some f2 hstepB]
      rw [ihk (i + 1) f2 { c with currentSentenceIdx := (i : Int) }
        (by omega) (by omega) hflag hctx]
      simp [evsFor]
    | noAudio =>
      obtain ⟨f2, rfl⟩ : ∃ f, f1 = f + 1 := ⟨f1 - 1, by omega⟩
      have hstepB : handlePlayStoryStep env n (Pos.afterFetch i)
          { c with currentSentenceIdx := (i : Int) } =
          some (Pos.atLoopHead (i + 1),
            { c with currentSentenceIdx := (i : Int) }, []) := by
        simp [handlePlayStoryStep, hres, hflag]
      rw [run_step_some f2 hstepB]
      rw [ihk (i + 1) f2 { c with currentSentenceIdx := (i : Int) }
        (by omega) (by omega) hflag hctx]
      simp [evsFor]
    | ok bytes =>
      cases hdec : decodeAudioData bytes 24000 1 with
      | none =>
        obtain ⟨f2, rfl⟩ : ∃ f, f1 = f + 1 := ⟨f1 - 1, by omega⟩
        obtain ⟨f3, rfl⟩ : ∃ f, f2 = f + 1 := ⟨f2 - 1, by omega⟩
        have hstepB : handlePlayStoryStep env n (Pos.afterFetch i)
            { c with currentSentenceIdx := (i : Int) } =
            some (Pos.afterDecode i false,
              { c with currentSentenceIdx := (i : Int) }, []) := by
          simp [handlePlayStoryStep, hres, hflag, hdec]
        have hstepC : handlePlayStoryStep env n (Pos.afterDecode i false)
            { c with currentSentenceIdx := (i : Int) } =
            some (Pos.atLoopHead (i + 1),
              { c with currentSentenceIdx := (i : Int) }, []) := by
          simp [handlePlayStoryStep]
        rw [run_step_some (f3 + 1) hstepB, run_step_some f3 hstepC]
        rw [ihk (i + 1) f3 { c with currentSentenceIdx := (i : Int) }
          (by omega) (by omega) hflag hctx]
        simp [evsFor, hdec]
      | some buf =>
        obtain ⟨f2, rfl⟩ : ∃ f, f1 = f + 1 := ⟨f1 - 1, by omega⟩
        obtain ⟨f3, rfl⟩ : ∃ f, f2 = f + 1 := ⟨f2 - 1, by omega⟩
        obtain ⟨f4, rfl⟩ : ∃ f, f3 = f + 1 := ⟨f3 - 1, by omega⟩
        have e1 : (CtxState.running == CtxState.noCtx) = false := rfl
        have e2 : (CtxState.running == CtxState.closed) = false := rfl
        have e3 : (CtxState.running == CtxState.running) = true := rfl
        have hstepB : handlePlayStoryStep env n (Pos.afterFetch i)
            { c with currentSentenceIdx := (i : Int) } =
            some (Pos.afterDecode i true,
              { c with currentSentenceIdx := (i : Int) }, [Ev.decodeDone i]) := by
          simp [handlePlayStoryStep, hres, hflag, hdec]
        have hstepC : handlePlayStoryStep env n (Pos.afterDecode i true)
            { c with currentSentenceIdx := (i : Int) } =
            some (Pos.awaitingEnd i,
              { c with currentSentenceIdx := (i : Int) }, [Ev.playStart i]) := by
          simp [handlePlayStoryStep, hflag, hctx, e1, e2]
        have hstepD : handlePlayStoryStep env n (Pos.awaitingEnd i)
            { c with currentSentenceIdx := (i : Int) } =
            some (Pos.atLoopHead (i + 1),
              { c with currentSentenceIdx := (i : Int) }, [Ev.playEnd i]) := by
          simp [handlePlayStoryStep, hctx, e3]
        rw [run_step_some (f4 + 1 + 1) hstepB, run_step_some (f4 + 1) hstepC,
          run_step_some f4 hstepD]
        rw [ihk (i + 1) f4 { c with currentSentenceIdx := (i : Int) }
          (by omega) (by omega) hflag hctx]
        simp [evsFor, hdec]

/-- Once the cancellation flag is set and status/index were reset, no
continuation of the session coroutine, from any suspension point,
changes them: it either breaks out (running the epilogue, which writes
the same values) or blocks. -/
theorem run_stopped (env : List SpeechResult) (n : Nat) :
    ∀ (fuel : Nat) (p : Pos) (c : Ctrl),
      c.stopFlag = true → c.playbackState = PbState.idle →
      c.currentSentenceIdx = -1 →
      ((handlePlayStoryRun env n fuel p c).2.1.stopFlag = true ∧
       (handlePlayStoryRun env n fuel p c).2.1.playbackState = PbState.idle ∧
       (handlePlayStoryRun env n fuel p c).2.1.currentSentenceIdx = -1) := by
  intro fuel
  induction fuel with
  | zero => intro p c h1 h2 h3; exact ⟨h1, h2, h3⟩
  | succ f ih =>
    intro p c h1 h2 h3
    have hepi : (epilogue c).stopFlag = true ∧
        (epilogue c).playbackState = PbState.idle ∧
        (epilogue c).currentSentenceIdx = -1 := by
      simp [epilogue, h1]
    cases p with
    | atLoopHead i =>
      by_cases hi : i < n
      · have hstep : handlePlayStoryStep env n (Pos.atLoopHead i) c =
            some (Pos.finished, epilogue c, []) := by
          simp [handlePlayStoryStep, hi, h1]
        rw [run_step_some f hstep]
        exact ih Pos.finished (epilogue c) hepi.1 hepi.2.1 hepi.2.2
      · have hstep : handlePlayStoryStep env n (Pos.atLoopHead i) c =
            some (Pos.finished, epilogue c, []) := by
          simp [handlePlayStoryStep, hi]
        rw [run_step_some f hstep]
        exact ih Pos.finished (epilogue c) hepi.1 hepi.2.1 hepi.2.2
    | afterFetch i =>
      cases hres : envAt env i with
      | fetchError =>
        have hstep : handlePlayStoryStep env n (Pos.afterFetch i) c =
            some (Pos.atLoopHead (i + 1), c, []) := by
          simp [handlePlayStoryStep, hres]
        rw [run_step_some f hstep]
        exact ih _ c h1 h2 h3
      | noAudio =>
        have hstep : handlePlayStoryStep env n (Pos.afterFetch i) c =
            some (Pos.finished, epilogue c, []) := by
          simp [handlePlayStoryStep, hres, h1]
        rw [run_step_some f hstep]
        exact ih Pos.finished (epilogue c) hepi.1 hepi.2.1 hepi.2.2
      | ok bytes =>
        have hstep : handlePlayStoryStep env n (Pos.afterFetch i) c =
            some (Pos.finished, epilogue c, []) := by
          simp [handlePlayStoryStep, hres, h1]
        rw [run_step_some f hstep]
        exact ih Pos.finished (epilogue c) hepi.1 hepi.2.1 hepi.2.2
    | afterDecode i ok =>
      cases ok with
      | false =>
        have hstep : handlePlayStoryStep env n (Pos.afterDecode i false) c =
            some (Pos.atLoopHead (i + 1), c, []) := by
          simp [handlePlayStoryStep]
        rw [run_step_some f hstep]
        exact ih _ c h1 h2 h3
      | true =>
        have hstep : handlePlayStoryStep env n (Pos.afterDecode i true) c =
            some (Pos.atLoopHead (i + 1), c, []) := by
          simp [handlePlayStoryStep, h1]
        rw [run_step_some f hstep]
        exact ih _ c h1 h2 h3
    | awaitingEnd i =>
      cases hctx : (c.ctx == CtxState.running) with
      | true =>
        have hstep : handlePlayStoryStep env n (Pos.awaitingEnd i) c =
            some (Pos.atLoopHead (i + 1), c, [Ev.playEnd i]) := by
          simp [handlePlayStoryStep, hctx]
        rw [run_step_some f hstep]
        exact ih _ c h1 h2 h3
      | false =>
        have hstep : handlePlayStoryStep env n (Pos.awaitingEnd i) c = none := by
          simp [handlePlayStoryStep, hctx]
        rw [run_step_none f hstep]
        exact ⟨h1, h2, h3⟩
    | finished =>
      rw [run_finished]
      exact ⟨h1, h2, h3⟩
    | died =>
      have hstep : handlePlayStoryStep env n Pos.died c = none := rfl
      rw [run_step_none f hstep]
      exact ⟨h1, h2, h3⟩

/-- Every event of a sentence's block carries that sentence's index. -/
theorem evsFor_idx (r : SpeechResult) (i : Nat) (e : Ev)
    (h : e ∈ evsFor r i) : evIdx e = i := by
  cases r with
  | ok bytes =>
    cases hdec : decodeAudioData bytes 24000 1 with
    | none =>
      rw [evsFor, hdec] at h
      simp at h
      subst h
      rfl
    | some buf =>
      rw [evsFor, hdec] at h
      simp at h
      rcases h with rfl | rfl | rfl | rfl <;> rfl
  | noAudio =>
    simp [evsFor] at h
    subst h
    rfl
  | fetchError =>
    simp [evsFor] at h
    subst h
    rfl

/-- Every sentence's block starts with its fetch event. -/
theorem fetchStart_mem_evsFor (r : SpeechResult) (i : Nat) :
    Ev.fetchStart i ∈ evsFor r i := by
  cases r with
  | ok bytes =>
    cases hdec : decodeAudioData bytes 24000 1 with
    | none => rw [evsFor, hdec]; simp
    | some buf => rw [evsFor, hdec]; simp
  | noAudio => simp [evsFor]
  | fetchError => simp [evsFor]

/-- An event absent from its own sentence's block is absent from the
whole session trace. -/
theorem not_mem_trace (env : List SpeechResult) (n : Nat) (e : Ev)
    (he : e ∉ evsFor (envAt env (evIdx e)) (evIdx e)) :
    e ∉ (((List.range n).map fun j => evsFor (envAt env j) j).flatten) := by
  intro hmem
  obtain ⟨b, hb, hbe⟩ := List.mem_flatten.mp hmem
  obtain ⟨j, _, rfl⟩ := List.mem_map.mp hb
  have hj := evsFor_idx (envAt env j) j e hbe
  rw [← hj] at hbe
  exact he hbe

/-- Claim C2: within a single undisturbed playback session, sentences
are processed strictly in segmented order — when every sentence's
speech call returns decodable audio, the emitted trace is exactly the
per-sentence blocks fetch, decode, play-start, play-end, one sentence
after the other, and after the last sentence's audio finishes the
controller is `finished` with status `idle` and index `-1`. -/
theorem claim2_sequential_pipeline (text : List Char) (env : List SpeechResult)
    (fuel : Nat)
    (hfuel : 4 * (splitSentences text).length + 2 ≤ fuel)
    (hok : ∀ i, i < (splitSentences text).length →
      resultPlayable (envAt env i) = true) :
    handlePlayStory text env false fuel
      { playbackState := PbState.idle, currentSentenceIdx := -1,
        stopFlag := false, ctx := CtxState.noCtx } =
      (Pos.finished,
       { playbackState := PbState.idle, currentSentenceIdx := -1,
         stopFlag := false, ctx := CtxState.running },
       ((List.range (splitSentences text).length).map fun i =>
         [Ev.fetchStart i, Ev.decodeDone i, Ev.playStart i, Ev.playEnd i]).flatten) := by
  have hstart : handlePlayStory text env false fuel
      { playbackState := PbState.idle, currentSentenceIdx := -1,
        stopFlag := false, ctx := CtxState.noCtx } =
      handlePlayStoryRun env (splitSentences text).length fuel
        (Pos.atLoopHead 0) startCtrl := rfl
  rw [hstart,
    run_char env (splitSentences text).length (splitSentences text).length 0 fuel
      startCtrl (by omega) hfuel rfl rfl,
    ← List.range_eq_range']
  have hmap : (List.range (splitSentences text).length).map
      (fun j => evsFor (envAt env j) j) =
      (List.range (splitSentences text).length).map
        (fun i => [Ev.fetchStart i, Ev.decodeDone i, Ev.playStart i, Ev.playEnd i]) := by
    apply List.map_congr_left
    intro j hj
    have hp := hok j (List.mem_range.mp hj)
    cases hres : envAt env j with
    | ok bytes =>
      rw [hres] at hp
      simp only [resultPlayable] at hp
      obtain ⟨buf, hdec⟩ := Option.isSome_iff_exists.mp hp
      simp [evsFor, hdec]
    | noAudio => rw [hres] at hp; simp [resultPlayable] at hp
    | fetchError => rw [hres] at hp; simp [resultPlayable] at hp
  rw [hmap]
  rfl

/-- Witness for claim C2 at the spec scenario: two sentences, both with
decodable audio, play strictly in order and the controller returns to
`idle`. -/
theorem claim2_witness :
    handlePlayStory ("Hello world. How are you?".data)
      [SpeechResult.ok [0, 0], SpeechResult.ok [0, 0]] false 12
      { playbackState := PbState.idle, currentSentenceIdx := -1,
        stopFlag := false, ctx := CtxState.noCtx } =
      (Pos.finished,
       { playbackState := PbState.idle, currentSentenceIdx := -1,
         stopFlag := false, ctx := CtxState.running },
       [Ev.fetchStart 0, Ev.decodeDone 0, Ev.playStart 0, Ev.playEnd 0,
        Ev.fetchStart 1, Ev.decodeDone 1, Ev.playStart 1, Ev.playEnd 1]) := by
  rw [claim2_sequential_pipeline ("Hello world. How are you?".data)
    [SpeechResult.ok [0, 0], SpeechResult.ok [0, 0]] 12 (by decide) (by decide)]
  decide

/-- Claim C8: for any per-sentence speech results — including missing
audio and thrown synthesis or decode errors — the session never aborts:
it finishes with status `idle` and index `-1`, every sentence's fetch
is attempted, and a sentence whose speech call returned no audio
contributes no decode and no playback wait. -/
theorem claim8_skip_and_continue (env : List SpeechResult) (n fuel : Nat)
    (hfuel : 4 * n + 2 ≤ fuel) :
    (handlePlayStoryRun env n fuel (Pos.atLoopHead 0) startCtrl).1 = Pos.finished ∧
    (handlePlayStoryRun env n fuel (Pos.atLoopHead 0) startCtrl).2.1.playbackState =
      PbState.idle ∧
    (handlePlayStoryRun env n fuel (Pos.atLoopHead 0) startCtrl).2.1.currentSentenceIdx =
      -1 ∧
    (∀ i, i < n → Ev.fetchStart i ∈
      (handlePlayStoryRun env n fuel (Pos.atLoopHead 0) startCtrl).2.2) ∧
    (∀ i, i < n → envAt env i = SpeechResult.noAudio →
      Ev.playStart i ∉
        (handlePlayStoryRun env n fuel (Pos.atLoopHead 0) startCtrl).2.2 ∧
      Ev.decodeDone i ∉
        (handlePlayStoryRun env n fuel (Pos.atLoopHead 0) startCtrl).2.2) := by
  have hrc := run_char env n n 0 fuel startCtrl (by omega) hfuel rfl rfl
  rw [← List.range_eq_range'] at hrc
  rw [hrc]
  refine ⟨rfl, rfl, rfl, ?_, ?_⟩
  · intro i hi
    exact List.mem_flatten.mpr ⟨evsFor (envAt env i) i,
      List.mem_map_of_mem _ (List.mem_range.mpr hi), fetchStart_mem_evsFor _ i⟩
  · intro i hi hna
    constructor
    · apply not_mem_trace
      simp [evIdx, hna, evsFor]
    · apply not_mem_trace
      simp [evIdx, hna, evsFor]

/-- Witness for claim C8: sentence 0 returns no audio, sentence 1
returns a valid payload; the session skips 0's playback, plays 1, and
completes normally. -/
theorem claim8_witness :
    (handlePlayStoryRun [SpeechResult.noAudio, SpeechResult.ok [0, 0]] 2 10
      (Pos.atLoopHead 0) startCtrl).1 = Pos.finished ∧
    (handlePlayStoryRun [SpeechResult.noAudio, SpeechResult.ok [0, 0]] 2 10
      (Pos.atLoopHead 0) startCtrl).2.1.playbackState = PbState.idle ∧
    (handlePlayStoryRun [SpeechResult.noAudio, SpeechResult.ok [0, 0]] 2 10
      (Pos.atLoopHead 0) startCtrl).2.1.currentSentenceIdx = -1 ∧
    (∀ i, i < 2 → Ev.fetchStart i ∈
      (handlePlayStoryRun [SpeechResult.noAudio, SpeechResult.ok [0, 0]] 2 10
        (Pos.atLoopHead 0) startCtrl).2.2) ∧
    (∀ i, i < 2 → envAt [SpeechResult.noAudio, SpeechResult.ok [0, 0]] i =
        SpeechResult.noAudio →
      Ev.playStart i ∉
        (handlePlayStoryRun [SpeechResult.noAudio, SpeechResult.ok [0, 0]] 2 10
          (Pos.atLoopHead 0) startCtrl).2.2 ∧
      Ev.decodeDone i ∉
        (handlePlayStoryRun [SpeechResult.noAudio, SpeechResult.ok [0, 0]] 2 10
          (Pos.atLoopHead 0) startCtrl).2.2) :=
  claim8_skip_and_continue [SpeechResult.noAudio, SpeechResult.ok [0, 0]] 2 10
    (by decide)

/-- Claim C6, amended: mono decoding fails exactly when the byte length
is odd (not a multiple of `2 * channels`) or when the buffer is empty
(no complete frame, the zero-length `createBuffer` throws); and inside
the playback loop such a decode error is contained per sentence — the
session still finishes with status `idle`, every sentence is still
fetched, and the failing sentence merely contributes no playback. -/
theorem claim6_decode_failure_contained :
    (∀ (data : List Nat) (r : Nat),
      decodeAudioData data r 1 = none ↔
        (data.length % 2 = 1 ∨ data.length = 0)) ∧
    (∀ (env : List SpeechResult) (n fuel : Nat), 4 * n + 2 ≤ fuel →
      (handlePlayStoryRun env n fuel (Pos.atLoopHead 0) startCtrl).1 =
        Pos.finished ∧
      (handlePlayStoryRun env n fuel (Pos.atLoopHead 0) startCtrl).2.1.playbackState =
        PbState.idle ∧
      (∀ i, i < n → Ev.fetchStart i ∈
        (handlePlayStoryRun env n fuel (Pos.atLoopHead 0) startCtrl).2.2) ∧
      (∀ i, i < n → ∀ bytes, envAt env i = SpeechResult.ok bytes →
        decodeAudioData bytes 24000 1 = none →
        Ev.playStart i ∉
          (handlePlayStoryRun env n fuel (Pos.atLoopHead 0) startCtrl).2.2 ∧
        Ev.decodeDone i ∉
          (handlePlayStoryRun env n fuel (Pos.atLoopHead 0) startCtrl).2.2)) := by
  constructor
  · exact fun data r => decodeAudioData_none_iff data r
  · intro env n fuel hfuel
    have hrc := run_char env n n 0 fuel startCtrl (by omega) hfuel rfl rfl
    rw [← List.range_eq_range'] at hrc
    rw [hrc]
    refine ⟨rfl, rfl, ?_, ?_⟩
    · intro i hi
      exact List.mem_flatten.mpr ⟨evsFor (envAt env i) i,
        List.mem_map_of_mem _ (List.mem_range.mpr hi), fetchStart_mem_evsFor _ i⟩
    · intro i hi bytes hok hdec
      constructor
      · apply not_mem_trace
        simp [evIdx, hok, evsFor, hdec]
      · apply not_mem_trace
        simp [evIdx, hok, evsFor, hdec]

/-- Witness for claim C6: a one-byte (odd) payload fails to decode, the
failure is contained, and the session still completes. -/
theorem claim6_witness :
    decodeAudioData [0] 24000 1 = none ∧
    (handlePlayStoryRun [SpeechResult.ok [0]] 1 10
      (Pos.atLoopHead 0) startCtrl).1 = Pos.finished ∧
    (handlePlayStoryRun [SpeechResult.ok [0]] 1 10
      (Pos.atLoopHead 0) startCtrl).2.1.playbackState = PbState.idle ∧
    Ev.fetchStart 0 ∈ (handlePlayStoryRun [SpeechResult.ok [0]] 1 10
      (Pos.atLoopHead 0) startCtrl).2.2 ∧
    Ev.playStart 0 ∉ (handlePlayStoryRun [SpeechResult.ok [0]] 1 10
      (Pos.atLoopHead 0) startCtrl).2.2 := by
  have h := claim6_decode_failure_contained
  have h2 := h.2 [SpeechResult.ok [0]] 1 10 (by decide)
  exact ⟨(h.1 [0] 24000).mpr (Or.inl (by decide)), h2.1, h2.2.1,
    h2.2.2.1 0 (by decide),
    (h2.2.2.2 0 (by decide) [0] (by decide) (by decide)).1⟩

/-- Claim C3: `stop()` invoked while a session is `playing` or `paused`
over a live device context sets the cancellation flag, suspends the
device, and resets status to `idle` and index to `-1`; and whatever
suspension point the session coroutine was at, letting it settle for
any number of steps leaves status `idle` and index `-1`. -/
theorem claim3_stop_settles_idle (c : Ctrl) (p : Pos) (env : List SpeechResult)
    (n fuel : Nat)
    (_hst : c.playbackState = PbState.playing ∨ c.playbackState = PbState.paused)
    (hctx : c.ctx = CtxState.running ∨ c.ctx = CtxState.suspended) :
    (handleStopPlayback c).stopFlag = true ∧
    (handleStopPlayback c).ctx = CtxState.suspended ∧
    (handleStopPlayback c).playbackState = PbState.idle ∧
    (handleStopPlayback c).currentSentenceIdx = -1 ∧
    (handlePlayStoryRun env n fuel p (handleStopPlayback c)).2.1.playbackState =
      PbState.idle ∧
    (handlePlayStoryRun env n fuel p (handleStopPlayback c)).2.1.currentSentenceIdx =
      -1 := by
  have hs : handleStopPlayback c =
      { playbackState := PbState.idle, currentSentenceIdx := -1,
        stopFlag := true, ctx := CtxState.suspended } := by
    rcases hctx with h | h <;> simp [handleStopPlayback, h]
  rw [hs]
  have hrun := run_stopped env n fuel p
    { playbackState := PbState.idle, currentSentenceIdx := -1,
      stopFlag := true, ctx := CtxState.suspended } rfl rfl rfl
  exact ⟨rfl, rfl, rfl, rfl, hrun.2.1, hrun.2.2⟩

/-- Witness for claim C3: stopping a session that is playing sentence 2
and is suspended awaiting that sentence's `onended` signal settles to
`idle` with index `-1`. -/
theorem claim3_witness :
    (handleStopPlayback
      { playbackState := PbState.playing, currentSentenceIdx := 2,
        stopFlag := false, ctx := CtxState.running }).stopFlag = true ∧
    (handleStopPlayback
      { playbackState := PbState.playing, currentSentenceIdx := 2,
        stopFlag := false, ctx := CtxState.running }).ctx = CtxState.suspended ∧
    (handleStopPlayback
      { playbackState := PbState.playing, currentSentenceIdx := 2,
        stopFlag := false, ctx := CtxState.running }).playbackState = PbState.idle ∧
    (handleStopPlayback
      { playbackState := PbState.playing, currentSentenceIdx := 2,
        stopFlag := false, ctx := CtxState.running }).currentSentenceIdx = -1 ∧
    (handlePlayStoryRun [] 3 10 (Pos.awaitingEnd 2)
      (handleStopPlayback
        { playbackState := PbState.playing, currentSentenceIdx := 2,
          stopFlag := false, ctx := CtxState.running })).2.1.playbackState =
      PbState.idle ∧
    (handlePlayStoryRun [] 3 10 (Pos.awaitingEnd 2)
      (handleStopPlayback
        { playbackState := PbState.playing, currentSentenceIdx := 2,
          stopFlag := false, ctx := CtxState.running })).2.1.currentSentenceIdx =
      -1 :=
  claim3_stop_settles_idle
    { playbackState := PbState.playing, currentSentenceIdx := 2,
      stopFlag := false, ctx := CtxState.running }
    (Pos.awaitingEnd 2) [] 3 10 (Or.inl rfl) (Or.inl rfl)

/-- Claim C9 fails on the source: `handlePlayStory` sets the status to
`playing` before attempting to construct the device context, and when
the construction throws the exception propagates uncaught — the call
dies with the observable status stuck at `playing` (and no failure
report), contradicting "the session does not enter the `playing`
status". -/
theorem claim9_device_failure_enters_playing (text : List Char)
    (env : List SpeechResult) (fuel : Nat) :
    handlePlayStory text env true fuel
      { playbackState := PbState.idle, currentSentenceIdx := -1,
        stopFlag := false, ctx := CtxState.noCtx } =
      (Pos.died,
       { playbackState := PbState.playing, currentSentenceIdx := -1,
         stopFlag := false, ctx := CtxState.noCtx },
       []) := rfl

/-- Claim C1 fails on the source: a second `play()` while `playing`
does run the stop sequence (flag set, device suspended) and waits the
grace delay, but it then clears the shared cancellation flag before
the old session's in-flight speech fetch has resolved.  The trace
below interleaves the two sessions: session 2 starts and issues its
own fetch, after which session 1's pending fetch resolves, sees the
flag cleared, decodes, and starts playback — the old session was not
torn down and both sessions are active over the device at once. -/
theorem claim1_overlapping_sessions_bug :
    -- session 1 starts from idle and issues its sentence-0 fetch
    handlePlayStoryInit false
      { playbackState := PbState.idle, currentSentenceIdx := -1,
        stopFlag := false, ctx := CtxState.noCtx } = (startCtrl, true) ∧
    handlePlayStoryStep [SpeechResult.ok [0, 0]] 1 (Pos.atLoopHead 0) startCtrl =
      some (Pos.afterFetch 0,
        { playbackState := PbState.playing, currentSentenceIdx := 0,
          stopFlag := false, ctx := CtxState.running },
        [Ev.fetchStart 0]) ∧
    -- play() is called again while playing: the stop sequence runs
    handleStopPlayback
      { playbackState := PbState.playing, currentSentenceIdx := 0,
        stopFlag := false, ctx := CtxState.running } =
      { playbackState := PbState.idle, currentSentenceIdx := -1,
        stopFlag := true, ctx := CtxState.suspended } ∧
    -- after the 50 ms grace delay the new session CLEARS the shared flag
    -- and resumes the device, while session 1's fetch is still pending
    handlePlayStoryInit false
      { playbackState := PbState.idle, currentSentenceIdx := -1,
        stopFlag := true, ctx := CtxState.suspended } =
      ({ playbackState := PbState.playing, currentSentenceIdx := -1,
         stopFlag := false, ctx := CtxState.running }, true) ∧
    -- the new session issues its own sentence-0 fetch
    handlePlayStoryStep [SpeechResult.ok [1, 0]] 1 (Pos.atLoopHead 0)
      { playbackState := PbState.playing, currentSentenceIdx := -1,
        stopFlag := false, ctx := CtxState.running } =
      some (Pos.afterFetch 0,
        { playbackState := PbState.playing, currentSentenceIdx := 0,
          stopFlag := false, ctx := CtxState.running },
        [Ev.fetchStart 0]) ∧
    -- now the OLD session's in-flight fetch resolves: the flag is clear
    -- again, so it proceeds to decode …
    handlePlayStoryStep [SpeechResult.ok [0, 0]] 1 (Pos.afterFetch 0)
      { playbackState := PbState.playing, currentSentenceIdx := 0,
        stopFlag := false, ctx := CtxState.running } =
      some (Pos.afterDecode 0 true,
        { playbackState := PbState.playing, currentSentenceIdx := 0,
          stopFlag := false, ctx := CtxState.running },
        [Ev.decodeDone 0]) ∧
    -- … and starts playing its buffer while session 2 is mid-fetch
    handlePlayStoryStep [SpeechResult.ok [0, 0]] 1 (Pos.afterDecode 0 true)
      { playbackState := PbState.playing, currentSentenceIdx := 0,
        stopFlag := false, ctx := CtxState.running } =
      some (Pos.awaitingEnd 0,
        { playbackState := PbState.playing, currentSentenceIdx := 0,
          stopFlag := false, ctx := CtxState.running },
        [Ev.playStart 0]) := by decide

/-- A saved-only filtered collection contains no drafts. -/
theorem filter_saved_no_draft (l : List StoryR) :
    (l.filter (fun x => x.isSaved)).filter (fun x => !x.isSaved) = [] := by
  induction l with
  | nil => rfl
  | cons a t ih =>
    cases h : a.isSaved with
    | true => simp [List.filter_cons, h, ih]
    | false => simp [List.filter_cons, h, ih]

/-- Filtering to the saved stories is idempotent. -/
theorem filter_saved_idem (l : List StoryR) :
    (l.filter (fun x => x.isSaved)).filter (fun x => x.isSaved) =
      l.filter (fun x => x.isSaved) := by
  induction l with
  | nil => rfl
  | cons a t ih =>
    cases h : a.isSaved with
    | true => simp [List.filter_cons, h, ih]
    | false => simp [List.filter_cons, h, ih]

/-- Draft count of a cons cell. -/
theorem draftCount_cons (a : StoryR) (t : List StoryR) :
    draftCount (a :: t) = (if a.isSaved then 0 else 1) + draftCount t := by
  cases h : a.isSaved
  · simp [draftCount, List.filter_cons, h]
    omega
  · simp [draftCount, List.filter_cons, h]

/-- Removing stories cannot increase the draft count. -/
theorem draftCount_filter_le (p : StoryR → Bool) (l : List StoryR) :
    draftCount (l.filter p) ≤ draftCount l := by
  induction l with
  | nil => exact Nat.le_refl 0
  | cons a t ih =>
    cases hp : p a with
    | true =>
      rw [List.filter_cons_of_pos hp, draftCount_cons, draftCount_cons]
      exact Nat.add_le_add_left ih _
    | false =>
      rw [List.filter_cons_of_neg (by simp [hp]), draftCount_cons]
      cases hs : a.isSaved <;> simp <;> omega

/-- An update that only marks a story saved cannot increase the draft
count. -/
theorem draftCount_update_le (id : String) (u : StoryUpdate)
    (hu : u.isSaved = some true) (l : List StoryR) :
    draftCount (handleUpdateStory id u l) ≤ draftCount l := by
  induction l with
  | nil => exact Nat.le_refl 0
  | cons a t ih =>
    simp only [handleUpdateStory, List.map_cons] at ih ⊢
    cases hid : (a.id == id) with
    | true =>
      have h1 : (applyUpdate u a).isSaved = true := by simp [applyUpdate, hu]
      rw [if_pos rfl, draftCount_cons, draftCount_cons, h1, if_pos rfl]
      cases hs : a.isSaved
      · rw [if_neg (by simp)]
        omega
      · rw [if_pos rfl]
        omega
    | false =>
      rw [if_neg (by simp), draftCount_cons, draftCount_cons]
      exact Nat.add_le_add_left ih _

/-- Each admissible operation preserves the at-most-one-draft
invariant. -/
theorem draftCount_applyOp (op : StoreOp) (l : List StoryR)
    (hop : marksSaved op) (h : draftCount l ≤ 1) :
    draftCount (applyOp op l) ≤ 1 := by
  cases op with
  | add s =>
    cases hs : s.isSaved with
    | false =>
      simp only [applyOp, handleAddStory, hs, Bool.not_false, if_true]
      simp only [draftCount, List.filter_cons, hs, Bool.not_false, if_true,
        filter_saved_no_draft, List.length_cons, List.length_nil]
      omega
    | true =>
      simp only [applyOp, handleAddStory, hs, Bool.not_true, if_false]
      simpa [draftCount, List.filter_cons, hs] using h
  | update id u =>
    have hu : u.isSaved = some true := hop
    exact Nat.le_trans (draftCount_update_le id u hu l) h
  | remove id =>
    exact Nat.le_trans (draftCount_filter_le _ l) h

/-- Folding admissible operations preserves the invariant. -/
theorem draftCount_foldl (ops : List StoreOp) :
    ∀ (l : List StoryR), draftCount l ≤ 1 → (∀ op ∈ ops, marksSaved op) →
      draftCount (ops.foldl (fun acc op => applyOp op acc) l) ≤ 1 := by
  induction ops with
  | nil => intro l h _; simpa using h
  | cons o os ih =>
    intro l h hops
    simp only [List.foldl_cons]
    exact ih (applyOp o l) (draftCount_applyOp o l (hops o (by simp)) h)
      (fun op hop => hops op (by simp [hop]))

/-- Claim C10: the stories collection holds at most one draft.  Adding
an unsaved story replaces every existing draft while preserving the
saved stories (the result is exactly the new draft in front of the
saved ones, with draft count one), and no sequence of `addStory`,
`updateStory` marking a story saved, and `removeStory` operations from
the empty collection ever yields more than one draft. -/
theorem claim10_single_draft_invariant :
    (∀ (s : StoryR) (prev : List StoryR), s.isSaved = false →
      handleAddStory s prev = s :: prev.filter (fun x => x.isSaved) ∧
      draftCount (handleAddStory s prev) = 1 ∧
      (handleAddStory s prev).filter (fun x => x.isSaved) =
        prev.filter (fun x => x.isSaved)) ∧
    (∀ ops : List StoreOp, (∀ op ∈ ops, marksSaved op) →
      draftCount (runOps ops) ≤ 1) := by
  constructor
  · intro s prev hs
    refine ⟨by simp [handleAddStory, hs], ?_, ?_⟩
    · simp [handleAddStory, hs, draftCount, List.filter_cons,
        filter_saved_no_draft]
    · simp [handleAddStory, hs, List.filter_cons, filter_saved_idem]
  · intro ops hops
    exact draftCount_foldl ops [] (by simp [draftCount]) hops

/-- Witness for claim C10: a concrete draft replacement and a concrete
operation sequence. -/
theorem claim10_witness :
    (handleAddStory ⟨"d2", false, "t2"⟩
        [⟨"a", true, "x"⟩, ⟨"d1", false, "y"⟩] =
      (⟨"d2", false, "t2"⟩ : StoryR) ::
        ([⟨"a", true, "x"⟩, ⟨"d1", false, "y"⟩] : List StoryR).filter
          (fun x => x.isSaved) ∧
     draftCount (handleAddStory ⟨"d2", false, "t2"⟩
       [⟨"a", true, "x"⟩, ⟨"d1", false, "y"⟩]) = 1 ∧
     (handleAddStory ⟨"d2", false, "t2"⟩
        [⟨"a", true, "x"⟩, ⟨"d1", false, "y"⟩]).filter (fun x => x.isSaved) =
       ([⟨"a", true, "x"⟩, ⟨"d1", false, "y"⟩] : List StoryR).filter
         (fun x => x.isSaved)) ∧
    draftCount (runOps
      [StoreOp.add ⟨"d1", false, "y"⟩, StoreOp.add ⟨"d2", false, "t2"⟩,
       StoreOp.update "d2" ⟨some true, none⟩, StoreOp.remove "d1"]) ≤ 1 := by
  constructor
  · exact claim10_single_draft_invariant.1 ⟨"d2", false, "t2"⟩
      [⟨"a", true, "x"⟩, ⟨"d1", false, "y"⟩] rfl
  · apply claim10_single_draft_invariant.2
    intro op hop
    simp only [List.mem_cons, List.not_mem_nil, or_false] at hop
    rcases hop with rfl | rfl | rfl | rfl
    · trivial
    · trivial
    · rfl
    · trivial
